import Mathlib

/-!
Verification of the pass management and pattern description subsystem
(src/backend/pass/pass_base.hpp) against its specification.

Shallow embedding conventions:
* C++ float (pass priority) is modelled as the exact rationals: the core only
  stores, copies and compares priorities, never does arithmetic on them, so
  every float value embeds exactly.
* Fallible operations (map lookup that the source guards with an assert,
  find_if whose result the source dereferences) return Option: none is the
  explicit failure outcome.
* The json writer/reader pair is modelled as a keyed record, a list of
  (key, value) pairs in emission order.
-/

/-- Translated from pass_base.hpp line 43:
enum class pass_type kAnalysis = 0, kTransformation = 1. -/
inductive pass_type : Type
  | kAnalysis : pass_type
  | kTransformation : pass_type
deriving DecidableEq

/-- A structured json value as produced by json_writer write_keyvalue:
the record fields of a pass are strings, a number (the C++ float priority,
embedded as an exact rational) and a boolean. -/
inductive json_value : Type
  | str : String → json_value
  | num : Rat → json_value
  | boolean : Bool → json_value
deriving DecidableEq

def json_value.as_string : json_value → Option String
  | .str s => some s
  | _ => none

def json_value.as_number : json_value → Option Rat
  | .num q => some q
  | _ => none

def json_value.as_boolean : json_value → Option Bool
  | .boolean b => some b
  | _ => none

/-- Translated from class pass_base (pass_base.hpp lines 102-201).
The type parameter α is the attribute value type: in the source attrs_
stores values of a fixed std::function type; the claims quantify over the
values, so the store is kept polymorphic.  Fields type_, backend_, name_,
index_, priority_ (default 5.0, line 199), enable_ (default true, line 200)
mirror the private members; attrs_ (line 192, a std::unordered_multimap)
is kept in container iteration order as a list of (key, value) pairs. -/
structure pass_base (α : Type) : Type where
  type_ : pass_type
  backend_ : String
  name_ : String
  index_ : Nat
  priority_ : Rat
  enable_ : Bool
  attrs_ : List (String × α)
deriving DecidableEq

def pass_base.get_pass_type (p : pass_base α) : pass_type := p.type_

def pass_base.get_pass_backend (p : pass_base α) : String := p.backend_

def pass_base.get_pass_name (p : pass_base α) : String := p.name_

def pass_base.get_pass_index (p : pass_base α) : Nat := p.index_

def pass_base.set_priority (p : pass_base α) (priority : Rat) : pass_base α :=
  { p with priority_ := priority }

def pass_base.get_priority (p : pass_base α) : Rat := p.priority_

def pass_base.get_enable (p : pass_base α) : Bool := p.enable_

/-- Translated from pass_base::save (pass_base.hpp lines 112-124): the writer
emits one object whose key/value pairs are written in this order; the
pass_type string is "Transformation" when type_ is kTransformation and
"Analysis" otherwise. -/
def pass_base.save (p : pass_base α) : List (String × json_value) :=
  [("pass_name", json_value.str p.name_),
   ("pass_type",
     if p.type_ = pass_type.kTransformation then json_value.str "Transformation"
     else json_value.str "Analysis"),
   ("pass_backend", json_value.str p.backend_),
   ("priority", json_value.num p.priority_),
   ("enable", json_value.boolean p.enable_)]

/-- Translated from pass_base::load (pass_base.hpp lines 126-135).  The
read_helper mechanics live in utils/json.hpp, which is not under src/, and are
modelled from the spec: load reads the declared fields from the record and
fails (SerializationError, embedded as none) if a required field is missing or
malformed.  Faithful to the source at lines 128-130: the pass_type field is
declared into a local string named type that is never assigned to type_, so
only name_, backend_, priority_ and enable_ are updated on the instance. -/
def pass_base.load (p : pass_base α) (r : List (String × json_value)) :
    Option (pass_base α) :=
  match (List.lookup "pass_name" r).bind json_value.as_string,
        (List.lookup "pass_type" r).bind json_value.as_string,
        (List.lookup "pass_backend" r).bind json_value.as_string,
        (List.lookup "priority" r).bind json_value.as_number,
        (List.lookup "enable" r).bind json_value.as_boolean with
  | some nm, some _ty, some bk, some pr, some en =>
      some { p with name_ := nm, backend_ := bk, priority_ := pr, enable_ := en }
  | _, _, _, _, _ => none

/-- Insertion into attrs_, translated from attrs_.insert(make_pair(name, v))
on a std::unordered_multimap (pass_base.hpp line 163).  The C++ standard
only requires elements of equal key to stay grouped; where inside its group
a new element lands is unspecified, and real libstdc++ realises both
extremes: before the group's first element on the ordinary path
(_M_find_before_node and _M_insert_multi_node in bits/hashtable.h, the only
path on toolchains contemporary with this 2020 source), and directly after
the group's first element on the GCC 12 small-container path
(_M_compute_hash_code, container size at most 20 under hash of string).
The embedding therefore takes the container's placement choice as an
explicit parameter pos: the new value lands after min(pos, group size)
existing members of its key group.  Iteration order across distinct keys is
hash dependent and unobservable through get_attr and has_attr, which filter
by one key; the model keeps a fresh key at the end. -/
def multimap_insert (l : List (String × α)) (k : String) (v : α)
    (pos : Nat) : List (String × α) :=
  match l, pos with
  | [], _ => [(k, v)]
  | e :: es, p =>
      if e.1 = k then
        match p with
        | 0 => (k, v) :: e :: es
        | q + 1 => e :: multimap_insert es k v q
      else e :: multimap_insert es k v p

/-- Translated from pass_base::set_attr (pass_base.hpp lines 160-165):
inserts into the multimap and returns the pass for chaining.  The trailing
pos argument is the container's unspecified placement of the new value
inside its equal-key group (see multimap_insert); the C++ signature does not
expose it because the implementation chooses it. -/
def pass_base.set_attr (p : pass_base α) (attr_name : String) (value : α)
    (pos : Nat) : pass_base α :=
  { p with attrs_ := multimap_insert p.attrs_ attr_name value pos }

/-- Translated from pass_base::get_attr (pass_base.hpp lines 173-180):
walks the whole multimap from begin to end and pushes the mapped value of
every entry whose key equals attr_name. -/
def pass_base.get_attr (p : pass_base α) (attr_name : String) : List α :=
  (p.attrs_.filter (fun e => e.1 = attr_name)).map (fun e => e.2)

/-- Translated from pass_base::has_attr (pass_base.hpp lines 187-189):
attrs_.find(attr_name) != attrs_.end(). -/
def pass_base.has_attr (p : pass_base α) (attr_name : String) : Bool :=
  p.attrs_.any (fun e => e.1 = attr_name)

/-- Translated from transformation_pass and its create factory
(pass_base.hpp lines 219-228): constructs a pass_base with kind
kTransformation and the given backend and name; priority and enable take
their member-initializer defaults (5.0, true); index_ is assigned later by
the registry (its pre-registration value is unspecified in C++, fixed as 0
here). -/
def transformation_pass.create (pbackend pname : String) : pass_base α :=
  { type_ := pass_type.kTransformation, backend_ := pbackend, name_ := pname,
    index_ := 0, priority_ := 5, enable_ := true, attrs_ := [] }

/-- Translated from the analysis_pass constructor (pass_base.hpp lines
207-212): a pass_base with kind kAnalysis. -/
def analysis_pass.make (pbackend pname : String) : pass_base α :=
  { type_ := pass_type.kAnalysis, backend_ := pbackend, name_ := pname,
    index_ := 0, priority_ := 5, enable_ := true, attrs_ := [] }

/-- Modelled from the spec: interface/ir.hpp (node_t and op_kind) is not
under src/.  Per spec section 3, a pattern node carries an operator-kind tag
including a special wildcard kind, written op_kind::any in the source,
meaning matches any operator. -/
inductive op_kind : Type
  | any : op_kind
  | op : String → op_kind
deriving DecidableEq

/-- Modelled from the spec: a pattern node exposes an operator-kind query
(node_t::get_op_kind in the source). -/
structure node_t : Type where
  op_kind_ : op_kind
deriving DecidableEq

def node_t.get_op_kind (nd : node_t) : op_kind := nd.op_kind_

/-- Translated from class pattern (pass_base.hpp lines 64-95): nodes_ is the
vector of nodes in creation order; the pattern exclusively owns them. -/
structure pattern : Type where
  nodes_ : List node_t
deriving DecidableEq

/-- Translated from pattern::create_node (pass_base.hpp lines 75-78):
push_back a new node built from the given kind and return it
(nodes_.back()). -/
def pattern.create_node (pat : pattern) (aop_kind : op_kind) :
    pattern × node_t :=
  ({ nodes_ := pat.nodes_ ++ [node_t.mk aop_kind] }, node_t.mk aop_kind)

/-- Translated from pattern::get_starter_node (pass_base.hpp lines 87-94):
find_if over nodes_ for the first node whose kind is not op_kind::any.  In
C++ the returned iterator is dereferenced unconditionally, which is
undefined behavior when no node qualifies; the embedding returns Option and
none is that explicit precondition-violation outcome. -/
def pattern.get_starter_node (pat : pattern) : Option node_t :=
  pat.nodes_.find? (fun nd => nd.get_op_kind ≠ op_kind.any)

/-- The possible failures of registry operations (spec section 7). -/
inductive reg_error : Type
  | DuplicateRegistration : reg_error
deriving DecidableEq

/-- Translated from class pass_registry (pass_base.hpp lines 238-276):
pass_counter (line 243, starts at 0), passes_ (the ordered catalog, line
274) and passes_map_ (the name-indexed lookup, line 275, kept as an
association list). -/
structure pass_registry (α : Type) : Type where
  pass_counter : Nat
  passes_ : List (pass_base α)
  passes_map_ : List (String × pass_base α)
deriving DecidableEq

/-- The freshly constructed registry singleton (pass_registry::get on first
access): empty catalog, empty map, counter 0. -/
def pass_registry.init : pass_registry α :=
  { pass_counter := 0, passes_ := [], passes_map_ := [] }

/-- Translated from pass_registry::get_pass_ptr (pass_base.hpp lines
261-265): look the name up in passes_map_; the source asserts that the name
exists (and dereferencing the end iterator past a disabled assert is
undefined), so absence is the explicit failure outcome none
(LookupError). -/
def pass_registry.get_pass_ptr (reg : pass_registry α) (pass_name : String) :
    Option (pass_base α) :=
  List.lookup pass_name reg.passes_map_

/-- Modelled from the spec: the body of pass_registry::register_pass is only
declared in src/ (pass_base.hpp lines 252-253).  Per spec section 4.3 it
invokes factory(backend, name), assigns the next value of the shared counter
as creation_index, appends the pass to the catalog and inserts it into the
name-indexed map, returning the stored pass; per spec section 7 a second
registration under a present name fails with DuplicateRegistration and
leaves the registry unchanged. -/
def pass_registry.register_pass (reg : pass_registry α)
    (backend_name pass_name : String) (fn : String → String → pass_base α) :
    pass_registry α × Except reg_error (pass_base α) :=
  match List.lookup pass_name reg.passes_map_ with
  | some _ => (reg, Except.error reg_error.DuplicateRegistration)
  | none =>
      let p : pass_base α := { fn backend_name pass_name with index_ := reg.pass_counter }
      ({ pass_counter := reg.pass_counter + 1,
         passes_ := reg.passes_ ++ [p],
         passes_map_ := reg.passes_map_ ++ [(pass_name, p)] }, Except.ok p)

/-- Translated from pass_registry::get_passes (pass_base.hpp line 255). -/
def pass_registry.get_passes (reg : pass_registry α) : List (pass_base α) :=
  reg.passes_

/-- A sequence of registration calls through the same registry, each via
transformation_pass::create as in the registration macro at the bottom of
pass_base.hpp; a failed registration leaves the registry as it was. -/
def pass_registry.register_all (reg : pass_registry α)
    (specs : List (String × String)) : pass_registry α :=
  specs.foldl
    (fun r s => (pass_registry.register_pass r s.1 s.2 transformation_pass.create).1)
    reg

/-- Modelled from the spec: the body of pass_registry::sort_passes is only
declared in src/ (pass_base.hpp line 259).  Per spec section 4.3 it reorders
the catalog by priority descending and the sort is stable: passes of equal
priority keep their relative registration order.  Insertion step: place the
pass before the first already-placed pass of lower-or-equal priority. -/
def insert_by_priority (p : pass_base α) :
    List (pass_base α) → List (pass_base α)
  | [] => [p]
  | q :: qs =>
      if q.priority_ ≤ p.priority_ then p :: q :: qs
      else q :: insert_by_priority p qs

/-- Modelled from the spec: stable insertion sort by priority descending
(see insert_by_priority). -/
def sort_passes_list : List (pass_base α) → List (pass_base α)
  | [] => []
  | p :: ps => insert_by_priority p (sort_passes_list ps)

/-- Modelled from the spec: pass_registry::sort_passes reorders the stored
catalog in place. -/
def pass_registry.sort_passes (reg : pass_registry α) : pass_registry α :=
  { reg with passes_ := sort_passes_list reg.passes_ }

/-! Helper lemmas about association-list lookup and first-match search. -/

lemma lookup_eq_none_iff {β : Type} (a : String) (l : List (String × β)) :
    List.lookup a l = none ↔ a ∉ l.map Prod.fst := by
  induction l with
  | nil => simp [List.lookup]
  | cons e es ih =>
      obtain ⟨k, v⟩ := e
      by_cases h : a = k
      · subst h
        simp [List.lookup_cons]
      · have hbeq : (a == k) = false := beq_eq_false_iff_ne.mpr h
        simp [List.lookup_cons, hbeq, h, ih]

lemma find_first_index {α : Type} (p : α → Bool) :
    ∀ l : List α, (∃ x ∈ l, p x = true) →
      ∃ i, ∃ hi : i < l.length,
        l.find? p = some (l.get ⟨i, hi⟩) ∧
        p (l.get ⟨i, hi⟩) = true ∧
        ∀ j, ∀ hj : j < l.length, j < i → p (l.get ⟨j, hj⟩) = false := by
  intro l
  induction l with
  | nil => intro h; simp at h
  | cons x xs ih =>
      intro h
      by_cases hx : p x = true
      · refine ⟨0, by simp, ?_, ?_, ?_⟩
        · simp [List.find?_cons, hx]
        · simpa using hx
        · intro j hj hj0
          omega
      · have hx' : p x = false := by
          cases hpx : p x
          · rfl
          · exact absurd hpx hx
        have hxs : ∃ y ∈ xs, p y = true := by
          rcases h with ⟨y, hy, hpy⟩
          rcases List.mem_cons.mp hy with hy | hy
          · exact absurd (hy ▸ hpy) hx
          · exact ⟨y, hy, hpy⟩
        rcases ih hxs with ⟨i, hi, hfind, hpi, hbefore⟩
        refine ⟨i + 1, by simpa using Nat.succ_lt_succ hi, ?_, ?_, ?_⟩
        · simp [List.find?_cons, hx']
          exact hfind
        · simpa using hpi
        · intro j hj hji
          cases j with
          | zero => simpa using hx'
          | succ j' =>
              have hj' : j' < xs.length := by simpa using Nat.lt_of_succ_lt_succ hj
              have := hbefore j' hj' (Nat.lt_of_succ_lt_succ hji)
              simpa using this

/-! Helper lemmas about the attribute multimap. -/

/-- The observable effect of one group insertion: the new value lands after
pos existing members of its key group (clamped to the group size). -/
def group_insert (g : List α) (v : α) (pos : Nat) : List α :=
  match g, pos with
  | g, 0 => v :: g
  | [], _ + 1 => [v]
  | w :: ws, q + 1 => w :: group_insert ws v q

lemma group_insert_nil {α : Type} (v : α) (pos : Nat) :
    group_insert ([] : List α) v pos = [v] := by
  cases pos <;> rfl

lemma group_insert_perm {α : Type} (v : α) :
    ∀ (g : List α) (pos : Nat), (group_insert g v pos).Perm (v :: g) := by
  intro g
  induction g with
  | nil =>
      intro pos
      rw [group_insert_nil]
  | cons w ws ih =>
      intro pos
      cases pos with
      | zero => exact List.Perm.refl _
      | succ q =>
          have h1 : group_insert (w :: ws) v (q + 1)
              = w :: group_insert ws v q := rfl
          rw [h1]
          exact ((ih q).cons w).trans (List.Perm.swap v w ws)

lemma multimap_insert_group {α : Type} :
    ∀ (l : List (String × α)) (k a : String) (v : α) (pos : Nat),
    ((multimap_insert l k v pos).filter (fun e => e.1 = a)).map (fun e => e.2)
      = if a = k then
          group_insert ((l.filter (fun e => e.1 = a)).map (fun e => e.2)) v pos
        else (l.filter (fun e => e.1 = a)).map (fun e => e.2) := by
  intro l
  induction l with
  | nil =>
      intro k a v pos
      by_cases h : a = k
      · subst h
        simp [multimap_insert, group_insert_nil]
      · have h' : ¬(k = a) := fun hh => h hh.symm
        simp [multimap_insert, h, h']
  | cons e es ih =>
      intro k a v pos
      obtain ⟨ek, ev⟩ := e
      by_cases hek : ek = k
      · subst hek
        cases pos with
        | zero =>
            by_cases ha : a = ek
            · subst ha
              simp [multimap_insert, group_insert]
            · have ha' : ¬(ek = a) := fun hh => ha hh.symm
              simp [multimap_insert, ha, ha']
        | succ q =>
            by_cases ha : a = ek
            · subst ha
              simp [multimap_insert, ih, group_insert]
            · have ha' : ¬(ek = a) := fun hh => ha hh.symm
              simp [multimap_insert, ha, ha', ih]
      · by_cases ha : a = ek
        · subst ha
          simp [multimap_insert, hek, ih]
        · have ha' : ¬(ek = a) := fun hh => ha hh.symm
          simp [multimap_insert, hek, ha', ih]

lemma get_attr_set_attr {α : Type} (p : pass_base α) (k a : String) (v : α)
    (pos : Nat) :
    (p.set_attr k v pos).get_attr a =
      if a = k then group_insert (p.get_attr a) v pos else p.get_attr a :=
  multimap_insert_group p.attrs_ k a v pos

/-- A sequence of set_attr calls on one pass: each entry carries the
attribute name, the value, and the container's placement choice inside the
value group. -/
def add_all {α : Type} (p : pass_base α) (ops : List (String × α × Nat)) :
    pass_base α :=
  ops.foldl (fun q e => q.set_attr e.1 e.2.1 e.2.2) p

lemma get_attr_add_all_perm {α : Type} (ops : List (String × α × Nat)) :
    ∀ (p : pass_base α) (a : String),
      ((add_all p ops).get_attr a).Perm
        (((ops.filter (fun e => e.1 = a)).map (fun e => e.2.1))
          ++ p.get_attr a) := by
  induction ops with
  | nil =>
      intro p a
      exact List.Perm.refl _
  | cons o os ih =>
      intro p a
      have h1 : add_all p (o :: os) = add_all (p.set_attr o.1 o.2.1 o.2.2) os :=
        rfl
      rw [h1]
      by_cases ha : a = o.1
      · have hstep : (p.set_attr o.1 o.2.1 o.2.2).get_attr a
            = group_insert (p.get_attr a) o.2.1 o.2.2 := by
          rw [get_attr_set_attr, if_pos ha]
        have hperm := ih (p.set_attr o.1 o.2.1 o.2.2) a
        rw [hstep] at hperm
        have h2 : (((os.filter (fun e => e.1 = a)).map (fun e => e.2.1))
              ++ group_insert (p.get_attr a) o.2.1 o.2.2).Perm
            (((os.filter (fun e => e.1 = a)).map (fun e => e.2.1))
              ++ (o.2.1 :: p.get_attr a)) :=
          List.Perm.append_left _
            (group_insert_perm o.2.1 (p.get_attr a) o.2.2)
        have h3 := (hperm.trans h2).trans List.perm_middle
        have hcond : o.1 = a := ha.symm
        have hfilter : ((o :: os).filter (fun e => e.1 = a)).map
              (fun e => e.2.1)
            = o.2.1 :: ((os.filter (fun e => e.1 = a)).map (fun e => e.2.1)) := by
          simp [List.filter_cons, hcond]
        rw [hfilter]
        simpa using h3
      · have ho : ¬(o.1 = a) := fun hh => ha hh.symm
        have hstep : (p.set_attr o.1 o.2.1 o.2.2).get_attr a = p.get_attr a := by
          rw [get_attr_set_attr, if_neg ha]
        have hperm := ih (p.set_attr o.1 o.2.1 o.2.2) a
        rw [hstep] at hperm
        have hfilter : ((o :: os).filter (fun e => e.1 = a)).map
              (fun e => e.2.1)
            = (os.filter (fun e => e.1 = a)).map (fun e => e.2.1) := by
          simp [List.filter_cons, ho]
        rw [hfilter]
        exact hperm

/-! Helper lemmas about the stable priority sort. -/

lemma insert_by_priority_perm {α : Type} (p : pass_base α)
    (l : List (pass_base α)) : (insert_by_priority p l).Perm (p :: l) := by
  induction l with
  | nil => simp [insert_by_priority]
  | cons q qs ih =>
      by_cases h : q.priority_ ≤ p.priority_
      · simp [insert_by_priority, h]
      · simp only [insert_by_priority, if_neg h]
        exact (ih.cons q).trans (List.Perm.swap p q qs)

lemma sort_passes_list_perm {α : Type} (l : List (pass_base α)) :
    (sort_passes_list l).Perm l := by
  induction l with
  | nil => simp [sort_passes_list]
  | cons p ps ih =>
      have h1 : sort_passes_list (p :: ps)
          = insert_by_priority p (sort_passes_list ps) := rfl
      rw [h1]
      exact (insert_by_priority_perm p (sort_passes_list ps)).trans (ih.cons p)

lemma insert_by_priority_pairwise {α : Type} (x : pass_base α)
    (l : List (pass_base α))
    (hl : l.Pairwise (fun a b => b.priority_ ≤ a.priority_ ∧
      (a.priority_ = b.priority_ → a.index_ < b.index_)))
    (hidx : ∀ y ∈ l, x.index_ < y.index_) :
    (insert_by_priority x l).Pairwise (fun a b => b.priority_ ≤ a.priority_ ∧
      (a.priority_ = b.priority_ → a.index_ < b.index_)) := by
  induction l with
  | nil => simp [insert_by_priority]
  | cons q qs ih =>
      rcases List.pairwise_cons.mp hl with ⟨hq, hqs⟩
      by_cases h : q.priority_ ≤ x.priority_
      · simp only [insert_by_priority, if_pos h]
        refine List.pairwise_cons.mpr ⟨?_, hl⟩
        intro z hz
        rcases List.mem_cons.mp hz with rfl | hz'
        · exact ⟨h, fun _ => hidx z (by simp)⟩
        · have hSqz := hq z hz'
          exact ⟨le_trans hSqz.1 h, fun _ => hidx z (by simp [hz'])⟩
      · simp only [insert_by_priority, if_neg h]
        refine List.pairwise_cons.mpr
          ⟨?_, ih hqs (fun y hy => hidx y (by simp [hy]))⟩
        intro z hz
        have hz' : z = x ∨ z ∈ qs := by
          have hmem := (insert_by_priority_perm x qs).mem_iff.mp hz
          simpa using hmem
        rcases hz' with rfl | hz'
        · have hlt : z.priority_ < q.priority_ := lt_of_not_le h
          exact ⟨le_of_lt hlt, fun heq => absurd heq (ne_of_gt hlt)⟩
        · exact hq z hz'

lemma sort_passes_list_pairwise {α : Type} (l : List (pass_base α))
    (h : l.Pairwise (fun a b => a.index_ < b.index_)) :
    (sort_passes_list l).Pairwise (fun a b => b.priority_ ≤ a.priority_ ∧
      (a.priority_ = b.priority_ → a.index_ < b.index_)) := by
  induction l with
  | nil => simp [sort_passes_list]
  | cons p ps ih =>
      rcases List.pairwise_cons.mp h with ⟨hp, hps⟩
      have hidx : ∀ y ∈ sort_passes_list ps, p.index_ < y.index_ := by
        intro y hy
        exact hp y ((sort_passes_list_perm ps).mem_iff.mp hy)
      exact insert_by_priority_pairwise p (sort_passes_list ps) (ih hps) hidx

/-! Helper lemmas about registration sequences. -/

lemma register_pass_fresh_step {α : Type} (reg : pass_registry α)
    (b nm : String) (fn : String → String → pass_base α)
    (h : List.lookup nm reg.passes_map_ = none) :
    (reg.register_pass b nm fn).1 =
      { pass_counter := reg.pass_counter + 1,
        passes_ := reg.passes_ ++ [{ fn b nm with index_ := reg.pass_counter }],
        passes_map_ :=
          reg.passes_map_ ++ [(nm, { fn b nm with index_ := reg.pass_counter })] } := by
  simp [pass_registry.register_pass, h]

lemma register_all_fresh {α : Type} (specs : List (String × String)) :
    ∀ reg : pass_registry α,
      (specs.map Prod.snd).Nodup →
      (∀ nm ∈ specs.map Prod.snd, List.lookup nm reg.passes_map_ = none) →
      ((reg.register_all specs).passes_.map (fun p => p.index_)
          = reg.passes_.map (fun p => p.index_)
            ++ List.range' reg.pass_counter specs.length) ∧
      (reg.register_all specs).pass_counter
          = reg.pass_counter + specs.length ∧
      (reg.register_all specs).passes_map_.map Prod.fst
          = reg.passes_map_.map Prod.fst ++ specs.map Prod.snd := by
  induction specs with
  | nil =>
      intro reg _ _
      simp [pass_registry.register_all, List.range']
  | cons s ss ih =>
      intro reg hnodup hfresh
      obtain ⟨b, nm⟩ := s
      have hlook : List.lookup nm reg.passes_map_ = none := hfresh nm (by simp)
      have hstep := register_pass_fresh_step reg b nm transformation_pass.create hlook
      have hunfold : reg.register_all ((b, nm) :: ss)
          = (reg.register_pass b nm transformation_pass.create).1.register_all ss := rfl
      have hnodup' : (ss.map Prod.snd).Nodup := (List.nodup_cons.mp (by simpa using hnodup)).2
      have hnm_not : nm ∉ ss.map Prod.snd := (List.nodup_cons.mp (by simpa using hnodup)).1
      have hfresh' : ∀ m ∈ ss.map Prod.snd,
          List.lookup m (reg.register_pass b nm transformation_pass.create).1.passes_map_ = none := by
        intro m hm
        rw [hstep]
        have hne : (m == nm) = false :=
          beq_eq_false_iff_ne.mpr (fun hh => hnm_not (hh ▸ hm))
        have hm0 : List.lookup m reg.passes_map_ = none := hfresh m (by simp [hm])
        simp [List.lookup_append, hm0, List.lookup_cons, hne, List.lookup]
      rcases ih (reg.register_pass b nm transformation_pass.create).1 hnodup' hfresh'
        with ⟨hidx, hcnt, hkeys⟩
      refine ⟨?_, ?_, ?_⟩
      · rw [hunfold, hidx, hstep]
        have hr : List.range' reg.pass_counter (ss.length + 1)
            = reg.pass_counter :: List.range' (reg.pass_counter + 1) ss.length := by
          simpa using List.range'_succ reg.pass_counter ss.length 1
        simp [hr, List.map_append]
      · rw [hunfold, hcnt, hstep]
        simp
        omega
      · rw [hunfold, hkeys, hstep]
        simp

/-! Concrete instances used as witnesses for the testable properties. -/

/-- A pattern built as [wildcard, op A, wildcard] through create_node. -/
def example_pattern_awa : pattern :=
  ((((pattern.mk []).create_node op_kind.any).1.create_node
      (op_kind.op "A")).1.create_node op_kind.any).1

/-- A pattern built from two wildcard nodes only. -/
def example_pattern_ww : pattern :=
  (((pattern.mk []).create_node op_kind.any).1.create_node op_kind.any).1

/-- Pass A: priority 5, registered first. -/
def pass_A : pass_base Unit :=
  { type_ := pass_type.kTransformation, backend_ := "b", name_ := "A",
    index_ := 0, priority_ := 5, enable_ := true, attrs_ := [] }

/-- Pass B: priority 10, registered second. -/
def pass_B : pass_base Unit :=
  { type_ := pass_type.kTransformation, backend_ := "b", name_ := "B",
    index_ := 1, priority_ := 10, enable_ := true, attrs_ := [] }

/-- Pass C: priority 5, registered third. -/
def pass_C : pass_base Unit :=
  { type_ := pass_type.kTransformation, backend_ := "b", name_ := "C",
    index_ := 2, priority_ := 5, enable_ := true, attrs_ := [] }

/-- A registry holding A(5), B(10), C(5) in registration order. -/
def example_registry : pass_registry Unit :=
  { pass_counter := 3, passes_ := [pass_A, pass_B, pass_C],
    passes_map_ := [("A", pass_A), ("B", pass_B), ("C", pass_C)] }

/-- A registry with a single registered pass named pass0. -/
def example_registry_one : pass_registry Unit :=
  (pass_registry.init).register_all [("backend0", "pass0")]

/-- Claim C1 (code bug): load(save(p)) does not reproduce the pass kind.
Saving a Transformation pass and loading the record into an Analysis-kind
instance restores name, backend, priority and enable exactly, but the loaded
pass still has kind Analysis: pass_base::load reads the pass_type field into
a local variable that it never assigns to type_. -/
theorem c1_load_save_does_not_restore_kind :
    (analysis_pass.make "backendY" "passQ" : pass_base Unit).load
        ((transformation_pass.create "backendX" "passA" : pass_base Unit).save)
      = some { type_ := pass_type.kAnalysis, backend_ := "backendX",
               name_ := "passA", index_ := 0, priority_ := 5, enable_ := true,
               attrs_ := [] }
    ∧ (transformation_pass.create "backendX" "passA" : pass_base Unit).type_
        = pass_type.kTransformation
    ∧ pass_type.kAnalysis ≠ pass_type.kTransformation := by decide

/-- Claim C2 (counterexample): with the before-first group placement that
every libstdc++ contemporary with this source uses unconditionally (and that
GCC 12 still uses once the container exceeds 20 elements), adding v1 and
then v2 under one attribute name reads back as [v2, v1]: the claimed
addition order [v1, v2] is not a guarantee the code provides. -/
theorem c2_get_attr_order_counterexample :
    (((transformation_pass.create "b" "p" : pass_base Nat).set_attr
        "x" 1 0).set_attr "x" 2 0).get_attr "x" = [2, 1]
    ∧ ¬((((transformation_pass.create "b" "p" : pass_base Nat).set_attr
        "x" 1 0).set_attr "x" 2 0).get_attr "x" = [1, 2]) := by
  decide

/-- Claim C2 (amended): for every pass built by a sequence of set_attr calls
on a freshly created pass — whatever placements inside the value groups the
container chooses — and every attribute name, get_attr returns exactly the
values added under that name: a permutation of the additions (so set_attr
never overwrites or removes prior values), and the empty sequence exactly
when the name was never used.  The order of the returned sequence is the
container's unspecified iteration order, not guaranteed to be the addition
order. -/
theorem c2_get_attr_returns_all_values {α : Type} (b n a : String)
    (ops : List (String × α × Nat)) :
    ((add_all (transformation_pass.create b n) ops).get_attr a).Perm
        ((ops.filter (fun e => e.1 = a)).map (fun e => e.2.1))
    ∧ ((add_all (transformation_pass.create b n) ops).get_attr a = []
        ↔ (ops.filter (fun e => e.1 = a)).map (fun e => e.2.1) = []) := by
  have hperm := get_attr_add_all_perm ops (transformation_pass.create b n) a
  have hbase : (transformation_pass.create b n : pass_base α).get_attr a = [] :=
    rfl
  rw [hbase, List.append_nil] at hperm
  refine ⟨hperm, ?_, ?_⟩
  · intro hnil
    exact ((hnil ▸ hperm).symm).eq_nil
  · intro hnil
    exact (hnil ▸ hperm).eq_nil

/-- Claim C3: on any pattern containing at least one non-wildcard node,
get_starter_node returns the first node in creation order whose op_kind is
not the wildcard: it yields the node at an index whose kind is not any while
every node at an earlier index is a wildcard. -/
theorem c3_starter_node_is_first_non_wildcard (pat : pattern)
    (h : ∃ nd ∈ pat.nodes_, nd.get_op_kind ≠ op_kind.any) :
    ∃ i, ∃ hi : i < pat.nodes_.length,
      pat.get_starter_node = some (pat.nodes_.get ⟨i, hi⟩) ∧
      (pat.nodes_.get ⟨i, hi⟩).get_op_kind ≠ op_kind.any ∧
      ∀ j, ∀ hj : j < pat.nodes_.length, j < i →
        (pat.nodes_.get ⟨j, hj⟩).get_op_kind = op_kind.any := by
  have h' : ∃ x ∈ pat.nodes_,
      (fun nd => decide (nd.get_op_kind ≠ op_kind.any)) x = true := by
    rcases h with ⟨x, hx, hpx⟩
    exact ⟨x, hx, decide_eq_true hpx⟩
  rcases find_first_index (fun nd => decide (nd.get_op_kind ≠ op_kind.any))
    pat.nodes_ h' with ⟨i, hi, hfind, hp, hbefore⟩
  refine ⟨i, hi, hfind, of_decide_eq_true hp, ?_⟩
  intro j hj hji
  have hfalse := hbefore j hj hji
  rw [decide_eq_false_iff_not] at hfalse
  exact not_ne_iff.mp hfalse

/-- Claim C3 witness: on the pattern [wildcard, op A, wildcard] the theorem
applies and get_starter_node returns the op A node. -/
theorem c3_starter_node_witness :
    (∃ nd ∈ example_pattern_awa.nodes_, nd.get_op_kind ≠ op_kind.any)
    ∧ example_pattern_awa.get_starter_node = some (node_t.mk (op_kind.op "A"))
    ∧ (∃ i, ∃ hi : i < example_pattern_awa.nodes_.length,
        example_pattern_awa.get_starter_node
          = some (example_pattern_awa.nodes_.get ⟨i, hi⟩) ∧
        (example_pattern_awa.nodes_.get ⟨i, hi⟩).get_op_kind ≠ op_kind.any ∧
        ∀ j, ∀ hj : j < example_pattern_awa.nodes_.length, j < i →
          (example_pattern_awa.nodes_.get ⟨j, hj⟩).get_op_kind = op_kind.any) :=
  ⟨by decide, by decide,
    c3_starter_node_is_first_non_wildcard example_pattern_awa (by decide)⟩

/-- Claim C4: on a pattern with zero nodes or with only wildcard nodes,
get_starter_node reaches the explicit no-eligible-node outcome none (the
embedded PreconditionViolation: the find_if returns the end position, which
the embedding surfaces as an error value rather than a node). -/
theorem c4_starter_node_fails_without_eligible_node (pat : pattern)
    (h : ∀ nd ∈ pat.nodes_, nd.get_op_kind = op_kind.any) :
    pat.get_starter_node = none := by
  unfold pattern.get_starter_node
  refine List.find?_eq_none.mpr ?_
  intro x hx
  simp [h x hx]

/-- Claim C4 witness: the theorem applies to the two-wildcard pattern. -/
theorem c4_starter_node_witness :
    (∀ nd ∈ example_pattern_ww.nodes_, nd.get_op_kind = op_kind.any)
    ∧ example_pattern_ww.get_starter_node = none :=
  ⟨by decide,
    c4_starter_node_fails_without_eligible_node example_pattern_ww (by decide)⟩

/-- Claim C5: get_pass_ptr yields the explicit lookup failure none exactly
when the name is absent from the name-indexed map, so an unregistered name
never silently yields a pass reference. -/
theorem c5_get_pass_ptr_fails_on_unregistered {α : Type}
    (reg : pass_registry α) (pass_name : String) :
    reg.get_pass_ptr pass_name = none ↔
      pass_name ∉ reg.passes_map_.map Prod.fst :=
  lookup_eq_none_iff pass_name reg.passes_map_

/-- Claim C6: sorting the catalog permutes it into priority-descending order
and the sort is stable: when the catalog is in registration order (strictly
increasing creation index), any earlier sorted element has
greater-or-equal priority and equal-priority passes keep the lower creation
index first. -/
theorem c6_sort_passes_descending_stable {α : Type} (reg : pass_registry α)
    (h : reg.passes_.Pairwise (fun a b => a.index_ < b.index_)) :
    (reg.sort_passes).passes_.Perm reg.passes_
    ∧ (reg.sort_passes).passes_.Pairwise (fun a b =>
        b.priority_ ≤ a.priority_ ∧
        (a.priority_ = b.priority_ → a.index_ < b.index_)) :=
  ⟨sort_passes_list_perm reg.passes_, sort_passes_list_pairwise reg.passes_ h⟩

/-- Claim C6 witness: on the registry holding A(priority 5), B(priority 10),
C(priority 5) in registration order the theorem applies, and the sorted
catalog is exactly [B, A, C]. -/
theorem c6_sort_passes_witness :
    example_registry.passes_.Pairwise (fun a b => a.index_ < b.index_)
    ∧ ((example_registry.sort_passes).passes_.Perm example_registry.passes_
      ∧ (example_registry.sort_passes).passes_.Pairwise (fun a b =>
          b.priority_ ≤ a.priority_ ∧
          (a.priority_ = b.priority_ → a.index_ < b.index_)))
    ∧ (example_registry.sort_passes).passes_ = [pass_B, pass_A, pass_C] :=
  ⟨by decide, c6_sort_passes_descending_stable example_registry (by decide),
    by decide⟩

/-- Claim C7: registering a second pass under a name already present in the
map fails with the explicit DuplicateRegistration error and returns the
registry unchanged: the first registration is kept, the second is not
silently applied. -/
theorem c7_duplicate_registration_rejected {α : Type} (reg : pass_registry α)
    (b nm : String) (fn : String → String → pass_base α)
    (h : (List.lookup nm reg.passes_map_).isSome = true) :
    reg.register_pass b nm fn
      = (reg, Except.error reg_error.DuplicateRegistration) := by
  cases ho : List.lookup nm reg.passes_map_ with
  | none => rw [ho] at h; simp at h
  | some p => simp [pass_registry.register_pass, ho]

/-- Claim C7 witness: re-registering the name pass0 on a registry that
already holds it is rejected and the registry is unchanged. -/
theorem c7_duplicate_registration_witness :
    ((List.lookup "pass0" example_registry_one.passes_map_).isSome = true)
    ∧ example_registry_one.register_pass "backend1" "pass0"
        transformation_pass.create
      = (example_registry_one, Except.error reg_error.DuplicateRegistration) :=
  ⟨by decide,
    c7_duplicate_registration_rejected example_registry_one "backend1" "pass0"
      transformation_pass.create (by decide)⟩

/-- Claim C8: save emits a record with exactly the five keys pass_name,
pass_type, pass_backend, priority and enable in keyed form; pass_type
carries Transformation or Analysis according to the pass kind; neither
creation_index nor attributes is ever persisted. -/
theorem c8_save_emits_exact_fields {α : Type} (p : pass_base α) :
    (p.save).map Prod.fst
        = ["pass_name", "pass_type", "pass_backend", "priority", "enable"]
    ∧ List.lookup "pass_name" p.save = some (json_value.str p.name_)
    ∧ List.lookup "pass_type" p.save
        = some (json_value.str (match p.type_ with
            | pass_type.kTransformation => "Transformation"
            | pass_type.kAnalysis => "Analysis"))
    ∧ List.lookup "pass_backend" p.save = some (json_value.str p.backend_)
    ∧ List.lookup "priority" p.save = some (json_value.num p.priority_)
    ∧ List.lookup "enable" p.save = some (json_value.boolean p.enable_)
    ∧ "creation_index" ∉ (p.save).map Prod.fst
    ∧ "attributes" ∉ (p.save).map Prod.fst := by
  obtain ⟨t, bk, nm, ix, pr, en, ats⟩ := p
  have hkeys : (pass_base.save (pass_base.mk t bk nm ix pr en ats)).map Prod.fst
      = ["pass_name", "pass_type", "pass_backend", "priority", "enable"] := rfl
  refine ⟨hkeys, rfl, ?_, rfl, rfl, rfl, ?_, ?_⟩
  · cases t <;> rfl
  · rw [hkeys]; decide
  · rw [hkeys]; decide

/-- Claim C9: registering N uniquely named passes on the fresh registry
yields exactly N catalog entries whose creation indices are the N distinct,
strictly increasing values 0 .. N-1, each assigned once from the shared
counter. -/
theorem c9_registration_indices_distinct_increasing {α : Type}
    (specs : List (String × String))
    (h : (specs.map Prod.snd).Nodup) :
    ((pass_registry.init : pass_registry α).register_all specs).passes_.length
        = specs.length
    ∧ ((pass_registry.init : pass_registry α).register_all specs).passes_.map
        (fun p => p.index_) = List.range specs.length
    ∧ (((pass_registry.init : pass_registry α).register_all specs).passes_.map
        (fun p => p.index_)).Pairwise (fun i j => i < j)
    ∧ (((pass_registry.init : pass_registry α).register_all specs).passes_.map
        (fun p => p.index_)).Nodup := by
  have hfresh : ∀ nm ∈ specs.map Prod.snd,
      List.lookup nm (pass_registry.init : pass_registry α).passes_map_
        = none := by
    intro nm _
    rfl
  rcases register_all_fresh specs pass_registry.init h hfresh
    with ⟨hidx, _, _⟩
  have hidx' : ((pass_registry.init : pass_registry α).register_all
      specs).passes_.map (fun p => p.index_) = List.range specs.length := by
    rw [List.range_eq_range']
    simpa [pass_registry.init] using hidx
  refine ⟨?_, hidx', ?_, ?_⟩
  · have hlen := congrArg List.length hidx'
    simpa using hlen
  · rw [hidx']
    exact List.pairwise_lt_range specs.length
  · rw [hidx']
    exact List.nodup_range specs.length

/-- Claim C9 witness: the theorem applies to three uniquely named
registrations. -/
theorem c9_registration_indices_witness :
    (([("b", "n1"), ("b", "n2"), ("b", "n3")] :
        List (String × String)).map Prod.snd).Nodup
    ∧ (((pass_registry.init : pass_registry Unit).register_all
          [("b", "n1"), ("b", "n2"), ("b", "n3")]).passes_.length
        = ([("b", "n1"), ("b", "n2"), ("b", "n3")] :
            List (String × String)).length
      ∧ ((pass_registry.init : pass_registry Unit).register_all
          [("b", "n1"), ("b", "n2"), ("b", "n3")]).passes_.map
            (fun p => p.index_)
        = List.range ([("b", "n1"), ("b", "n2"), ("b", "n3")] :
            List (String × String)).length
      ∧ (((pass_registry.init : pass_registry Unit).register_all
          [("b", "n1"), ("b", "n2"), ("b", "n3")]).passes_.map
            (fun p => p.index_)).Pairwise (fun i j => i < j)
      ∧ (((pass_registry.init : pass_registry Unit).register_all
          [("b", "n1"), ("b", "n2"), ("b", "n3")]).passes_.map
            (fun p => p.index_)).Nodup) :=
  ⟨by decide,
    c9_registration_indices_distinct_increasing
      [("b", "n1"), ("b", "n2"), ("b", "n3")] (by decide)⟩

/-- Claim C10: has_attr reports an attribute name as present exactly when
get_attr returns a non-empty value sequence: both consult the same attrs_
store. -/
theorem c10_has_attr_iff_get_attr_nonempty {α : Type} (p : pass_base α)
    (n : String) :
    p.has_attr n = true ↔ ¬(p.get_attr n = []) := by
  unfold pass_base.has_attr pass_base.get_attr
  simp [List.any_eq_true, List.map_eq_nil_iff, List.filter_eq_nil_iff]
